import Mathlib

/-!
Verification of the gan2png decoder (`src/main.cpp`).

The decode pipeline of `to_png` is embedded shallowly:

* a `Buffer` is the raw byte content of one input file (bytes as `Nat`,
  well-formed buffers have every byte `< 256`);
* an out-of-bounds buffer access — undefined behaviour in the C++ — is
  modelled by `Option`: a read or write outside the bounds yields `none`;
* machine arithmetic is `Nat` with explicit `% 2 ^ w` where the C++
  narrows to a fixed-width integer (`u16` header fields, the `u32` pixel
  count and allocation size).
-/

set_option maxRecDepth 10000

namespace Gan2Png

/-- A raw file buffer: the complete byte content of one candidate file. -/
structure Buffer where
  data : List Nat
deriving DecidableEq

/-- Well-formedness: every byte of the buffer is in the `u8` range. -/
def Buffer.WF (b : Buffer) : Prop := ∀ x ∈ b.data, x < 256

/-- `buffer.data[i]`: reading one byte; `none` models an out-of-bounds
access (undefined behaviour in the C++ source). -/
def readByte (b : Buffer) (i : Nat) : Option Nat := b.data.get? i

/-- `SIGNATURE_OFFSET` from the source. -/
def SIGNATURE_OFFSET : Nat := 0x000

/-- `SIGNATURE_LENGTH` from the source. -/
def SIGNATURE_LENGTH : Nat := 4

/-- `WIDTH_OFFSET` from the source. -/
def WIDTH_OFFSET : Nat := 0x424

/-- `HEIGHT_OFFSET` from the source. -/
def HEIGHT_OFFSET : Nat := 0x426

/-- `PALETTE_OFFSET` from the source. -/
def PALETTE_OFFSET : Nat := 0x430

/-- `IMAGE_OFFSET` from the source. -/
def IMAGE_OFFSET : Nat := 0x470

/-- `PALETTE_SIZE` from the source. -/
def PALETTE_SIZE : Nat := 64

/-- `PIXEL_STRIDE` from the source. -/
def PIXEL_STRIDE : Nat := 4

/-- `NUM_PALETTE_COLORS = PALETTE_SIZE / PIXEL_STRIDE = 16`. -/
def NUM_PALETTE_COLORS : Nat := PALETTE_SIZE / PIXEL_STRIDE

/-- The `ExpectedSignature` array of `validate_file`. -/
def ExpectedSignature : List Nat := [0x47, 0x41, 0x4E, 0x10]

/-- The loop body of `validate_file`: compares
`buffer.data[SIGNATURE_OFFSET + i]` with each remaining expected byte,
returning `false` at the first mismatch.  An out-of-bounds read is `none`. -/
def checkSig (b : Buffer) : Nat → List Nat → Option Bool
  | _, [] => some true
  | i, e :: es => do
      let x ← readByte b (SIGNATURE_OFFSET + i)
      if x ≠ e then some false else checkSig b (i + 1) es

/-- `validate_file` from the source. -/
def validate_file (b : Buffer) : Option Bool := checkSig b 0 ExpectedSignature

/-- One decoded palette entry, as left by
`u8 palette[NUM_PALETTE_COLORS][PIXEL_STRIDE] = { { 0, 0, 0, 0 } };`
followed by the fill loop that starts at `i = 1`: entry 0 keeps its
zero-initialised value, entries `i ≥ 1` take three bytes from
`PALETTE_OFFSET + i * PIXEL_STRIDE` and force alpha to `0xFF`. -/
def paletteEntry (b : Buffer) (i : Nat) : Option (List Nat) :=
  if i = 0 then some [0, 0, 0, 0]
  else do
    let r ← readByte b (PALETTE_OFFSET + i * PIXEL_STRIDE)
    let g ← readByte b (PALETTE_OFFSET + i * PIXEL_STRIDE + 1)
    let bl ← readByte b (PALETTE_OFFSET + i * PIXEL_STRIDE + 2)
    some [r, g, bl, 0xFF]

/-- Collects palette entries `i, i+1, ..., i+n-1`. -/
def paletteFrom (b : Buffer) : Nat → Nat → Option (List (List Nat))
  | _, 0 => some []
  | i, n + 1 => do
      let e ← paletteEntry b i
      let rest ← paletteFrom b (i + 1) n
      some (e :: rest)

/-- The palette-building section of `to_png`: all 16 entries. -/
def decode_palette (b : Buffer) : Option (List (List Nat)) :=
  paletteFrom b 0 NUM_PALETTE_COLORS

/-- `const u16 width = data[WIDTH_OFFSET] | (data[WIDTH_OFFSET+1] << 8);`
with the assignment to a `u16` modelled by `% 2 ^ 16`. -/
def read_width (b : Buffer) : Option Nat := do
  let lo ← readByte b WIDTH_OFFSET
  let hi ← readByte b (WIDTH_OFFSET + 1)
  some ((lo ||| (hi <<< 8)) % 2 ^ 16)

/-- `const u16 height = data[HEIGHT_OFFSET] | (data[HEIGHT_OFFSET+1] << 8);`
with the assignment to a `u16` modelled by `% 2 ^ 16`. -/
def read_height (b : Buffer) : Option Nat := do
  let lo ← readByte b HEIGHT_OFFSET
  let hi ← readByte b (HEIGHT_OFFSET + 1)
  some ((lo ||| (hi <<< 8)) % 2 ^ 16)

/-- `const u32 count = width * height;` -/
def pixelCount (w h : Nat) : Nat := (w * h) % 2 ^ 32

/-- The size `PIXEL_STRIDE * count` of the `pixeldata` allocation, a `u32`
multiplication. -/
def allocSize (w h : Nat) : Nat := (PIXEL_STRIDE * pixelCount w h) % 2 ^ 32

/-- The pairs `(i1, i2)` produced by one iteration of the inner loop
`for (x = 0; x < width; x += 2)` at row `y`: the `k`-th iteration has
`x = 2 * k`, so `i1 = y * width + 2 * k` and `i2 = i1 + 1`; the loop runs
while `2 * k < width`, i.e. for `k < (width + 1) / 2`. -/
def rowPairs (w y : Nat) : List (Nat × Nat) :=
  (List.range ((w + 1) / 2)).map (fun k => (y * w + 2 * k, y * w + 2 * k + 1))

/-- All pairs `(i1, i2)` visited by the nested loops, row by row. -/
def pixelPairs (w h : Nat) : List (Nat × Nat) :=
  (List.range h).flatMap (fun y => rowPairs w y)

/-- The zero colour `{0, 0, 0, 0}` (also the `List.getD` fallback; the C++
palette index is always `< 16` so the fallback is never taken for a full
palette). -/
def zeroColor : List Nat := [0, 0, 0, 0]

/-- The write trace of the unpacking loop: for each pair `(i1, i2)` it reads
the byte at `IMAGE_OFFSET + (i1 >> 1)`, takes `index1 = byte & 0x0F` and
`index2 = byte >> 4`, and records the two 4-byte `memcpy`s into `pixeldata`
at byte offsets `i1 * PIXEL_STRIDE` and `i2 * PIXEL_STRIDE`. -/
def unpackLoop (b : Buffer) (palette : List (List Nat)) :
    List (Nat × Nat) → Option (List (Nat × List Nat))
  | [] => some []
  | p :: ps => do
      let byte ← readByte b (IMAGE_OFFSET + (p.1 >>> 1))
      let rest ← unpackLoop b palette ps
      some ((p.1 * PIXEL_STRIDE, palette.getD (byte &&& 0x0F) zeroColor) ::
            (p.2 * PIXEL_STRIDE, palette.getD (byte >>> 4) zeroColor) :: rest)

/-- The full write trace of the nested unpacking loops. -/
def unpackWrites (b : Buffer) (palette : List (List Nat)) (w h : Nat) :
    Option (List (Nat × List Nat)) :=
  unpackLoop b palette (pixelPairs w h)

/-- Writes the bytes `vs` into `buf` starting at byte offset `off`;
a write outside the allocation is undefined behaviour, modelled as `none`. -/
def writeBytesAt : List Nat → Nat → List Nat → Option (List Nat)
  | buf, _, [] => some buf
  | buf, off, v :: vs =>
      if off < buf.length then writeBytesAt (buf.set off v) (off + 1) vs else none

/-- Applies a write trace to a pixel buffer in order. -/
def applyWrites : List Nat → List (Nat × List Nat) → Option (List Nat)
  | buf, [] => some buf
  | buf, wr :: ws => do
      let buf2 ← writeBytesAt buf wr.1 wr.2
      applyWrites buf2 ws

/-- The arguments of the `stbi_write_png` call: dimensions, channel count,
pixel bytes and row stride. -/
structure SinkCall where
  width : Nat
  height : Nat
  comp : Nat
  pixels : List Nat
  stride : Nat
deriving DecidableEq

/-- The per-file decode pipeline of `to_png`: validation, palette decode,
header read, allocation of `PIXEL_STRIDE * count` zeroed bytes, the nibble
unpacking loops, and finally the call to the image sink. -/
def process_file (b : Buffer) : Option SinkCall := do
  let ok ← validate_file b
  if ok then do
    let palette ← decode_palette b
    let w ← read_width b
    let h ← read_height b
    let pixeldata0 := List.replicate (allocSize w h) 0
    let ws ← unpackWrites b palette w h
    let pixeldata ← applyWrites pixeldata0 ws
    some ⟨w, h, PIXEL_STRIDE, pixeldata, w * PIXEL_STRIDE⟩
  else none

/-! ### Concrete sample inputs

`sampleBytes` is the 4×2 scenario of the specification: a validated file
whose palette entry 1 is RGB(255,0,0) (stored alpha byte 7, which the
decoder ignores) and whose bitmap region holds the bytes
`[0x10, 0x01, 0x10, 0x01]`.  `oddBytes` is a 3×1 (odd-width) file. -/

def sampleBytes : List Nat :=
  [0x47, 0x41, 0x4E, 0x10] ++ List.replicate (0x424 - 4) 0 ++
  [4, 0, 2, 0] ++ List.replicate 8 0 ++
  [9, 9, 9, 9] ++ [255, 0, 0, 7] ++ List.replicate (14 * 4) 0 ++
  [0x10, 0x01, 0x10, 0x01]

def sampleBuffer : Buffer := ⟨sampleBytes⟩

def samplePalette : List (List Nat) := (decode_palette sampleBuffer).getD []

def sampleWrites : List (Nat × List Nat) :=
  (unpackWrites sampleBuffer samplePalette 4 2).getD []

def sampleCall : SinkCall := (process_file sampleBuffer).getD ⟨0, 0, 0, [], 0⟩

def oddBytes : List Nat :=
  [0x47, 0x41, 0x4E, 0x10] ++ List.replicate (0x424 - 4) 0 ++
  [3, 0, 1, 0] ++ List.replicate 8 0 ++
  [9, 9, 9, 9] ++ [255, 0, 0, 7] ++ List.replicate (14 * 4) 0 ++
  [0x21, 0x03]

def oddBuffer : Buffer := ⟨oddBytes⟩

def oddPalette : List (List Nat) := (decode_palette oddBuffer).getD []

def oddWrites : List (Nat × List Nat) :=
  (unpackWrites oddBuffer oddPalette 3 1).getD []

/-! ### Helper lemmas -/

theorem lor_shiftLeft_eight {lo : Nat} (hi : Nat) (h : lo < 256) :
    lo ||| (hi <<< 8) = lo + 256 * hi := by
  rw [Nat.shiftLeft_eq, Nat.lor_comm, Nat.mul_comm hi (2 ^ 8)]
  rw [← Nat.mul_add_lt_is_or h (i := 8) hi]
  omega

theorem readByte_lt {b : Buffer} {i v : Nat} (hwf : b.WF) (h : readByte b i = some v) :
    v < 256 :=
  hwf v (List.get?_mem h)

theorem readByte_isSome {b : Buffer} {i : Nat} (h : i < b.data.length) :
    ∃ v, readByte b i = some v :=
  ⟨b.data.get ⟨i, h⟩, List.get?_eq_get h⟩

theorem paletteFrom_succ (b : Buffer) (i n : Nat) :
    paletteFrom b i (n + 1) =
      (paletteEntry b i).bind (fun e =>
        (paletteFrom b (i + 1) n).bind (fun rest => some (e :: rest))) := rfl

theorem paletteFrom_succ_elim {b : Buffer} {i n : Nat} {l : List (List Nat)}
    (h : paletteFrom b i (n + 1) = some l) :
    ∃ e rest, paletteEntry b i = some e ∧ paletteFrom b (i + 1) n = some rest ∧
      l = e :: rest := by
  rw [paletteFrom_succ, Option.bind_eq_some] at h
  obtain ⟨e, he, h⟩ := h
  rw [Option.bind_eq_some] at h
  obtain ⟨rest, hrest, h⟩ := h
  exact ⟨e, rest, he, hrest, (Option.some_inj.mp h).symm⟩

theorem paletteEntry_pos_elim {b : Buffer} {i : Nat} {c : List Nat}
    (hi : i ≠ 0) (h : paletteEntry b i = some c) :
    ∃ r g bl, readByte b (PALETTE_OFFSET + i * PIXEL_STRIDE) = some r ∧
      readByte b (PALETTE_OFFSET + i * PIXEL_STRIDE + 1) = some g ∧
      readByte b (PALETTE_OFFSET + i * PIXEL_STRIDE + 2) = some bl ∧
      c = [r, g, bl, 255] := by
  rw [show paletteEntry b i =
        (readByte b (PALETTE_OFFSET + i * PIXEL_STRIDE)).bind (fun r =>
          (readByte b (PALETTE_OFFSET + i * PIXEL_STRIDE + 1)).bind (fun g =>
            (readByte b (PALETTE_OFFSET + i * PIXEL_STRIDE + 2)).bind (fun bl =>
              some [r, g, bl, 0xFF]))) by
      rw [paletteEntry, if_neg hi]
      rfl] at h
  rw [Option.bind_eq_some] at h
  obtain ⟨r, hr, h⟩ := h
  rw [Option.bind_eq_some] at h
  obtain ⟨g, hg, h⟩ := h
  rw [Option.bind_eq_some] at h
  obtain ⟨bl, hbl, h⟩ := h
  exact ⟨r, g, bl, hr, hg, hbl, (Option.some_inj.mp h).symm⟩

theorem paletteFrom_length {b : Buffer} :
    ∀ {n i : Nat} {l : List (List Nat)}, paletteFrom b i n = some l → l.length = n := by
  intro n
  induction n with
  | zero => intro i l h; simp [paletteFrom] at h; simp [← h]
  | succ n ih =>
      intro i l h
      obtain ⟨e, rest, _, hrest, hl⟩ := paletteFrom_succ_elim h
      subst hl
      simp [ih hrest]

theorem paletteFrom_getD {b : Buffer} :
    ∀ {n i : Nat} {l : List (List Nat)}, paletteFrom b i n = some l →
      ∀ k, k < n → paletteEntry b (i + k) = some (l.getD k zeroColor) := by
  intro n
  induction n with
  | zero => intro i l _ k hk; omega
  | succ n ih =>
      intro i l h k hk
      obtain ⟨e, rest, he, hrest, hl⟩ := paletteFrom_succ_elim h
      subst hl
      cases k with
      | zero => simpa using he
      | succ k =>
          have := ih hrest k (by omega)
          simpa [Nat.add_assoc, Nat.add_comm 1 k] using this

theorem paletteFrom_entry_length {b : Buffer} :
    ∀ {n i : Nat} {l : List (List Nat)}, paletteFrom b i n = some l →
      ∀ c ∈ l, c.length = 4 := by
  intro n
  induction n with
  | zero =>
      intro i l h c hc
      simp only [paletteFrom, Option.some_inj] at h
      subst h
      simp at hc
  | succ n ih =>
      intro i l h c hc
      obtain ⟨e, rest, he, hrest, hl⟩ := paletteFrom_succ_elim h
      subst hl
      rcases List.mem_cons.mp hc with hc | hc
      · subst hc
        by_cases hi : i = 0
        · subst hi
          rw [show paletteEntry b 0 = some [0, 0, 0, 0] from rfl, Option.some_inj] at he
          rw [← he]
          rfl
        · obtain ⟨r, g, bl, _, _, _, hc⟩ := paletteEntry_pos_elim hi he
          simp [hc]
      · exact ih hrest c hc

theorem decode_palette_getD_length {b : Buffer} {pal : List (List Nat)}
    (h : decode_palette b = some pal) (i : Nat) :
    (pal.getD i zeroColor).length = 4 := by
  rw [List.getD_eq_get?]
  cases hg : pal.get? i with
  | none => simp [zeroColor]
  | some c =>
      simp only [Option.getD_some]
      exact paletteFrom_entry_length h c (List.get?_mem hg)

theorem unpackLoop_cons (b : Buffer) (pal : List (List Nat)) (p : Nat × Nat)
    (ps : List (Nat × Nat)) :
    unpackLoop b pal (p :: ps) =
      (readByte b (IMAGE_OFFSET + (p.1 >>> 1))).bind (fun byte =>
        (unpackLoop b pal ps).bind (fun rest =>
          some ((p.1 * PIXEL_STRIDE, pal.getD (byte &&& 0x0F) zeroColor) ::
                (p.2 * PIXEL_STRIDE, pal.getD (byte >>> 4) zeroColor) :: rest))) := rfl

theorem unpackLoop_cons_elim {b : Buffer} {pal : List (List Nat)} {p : Nat × Nat}
    {ps : List (Nat × Nat)} {ws : List (Nat × List Nat)}
    (h : unpackLoop b pal (p :: ps) = some ws) :
    ∃ byte rest, readByte b (IMAGE_OFFSET + (p.1 >>> 1)) = some byte ∧
      unpackLoop b pal ps = some rest ∧
      ws = (p.1 * PIXEL_STRIDE, pal.getD (byte &&& 0x0F) zeroColor) ::
           (p.2 * PIXEL_STRIDE, pal.getD (byte >>> 4) zeroColor) :: rest := by
  rw [unpackLoop_cons, Option.bind_eq_some] at h
  obtain ⟨byte, hbyte, h⟩ := h
  rw [Option.bind_eq_some] at h
  obtain ⟨rest, hrest, h⟩ := h
  exact ⟨byte, rest, hbyte, hrest, (Option.some_inj.mp h).symm⟩

theorem unpackLoop_length {b : Buffer} {pal : List (List Nat)} :
    ∀ {ps : List (Nat × Nat)} {ws : List (Nat × List Nat)},
      unpackLoop b pal ps = some ws → ws.length = 2 * ps.length := by
  intro ps
  induction ps with
  | nil =>
      intro ws h
      simp only [unpackLoop, Option.some_inj] at h
      simp [← h]
  | cons p ps ih =>
      intro ws h
      obtain ⟨byte, rest, _, hrest, hw⟩ := unpackLoop_cons_elim h
      subst hw
      simp [ih hrest]
      omega

theorem unpackLoop_mem {b : Buffer} {pal : List (List Nat)} :
    ∀ {ps : List (Nat × Nat)} {ws : List (Nat × List Nat)},
      unpackLoop b pal ps = some ws → ∀ p ∈ ps,
        ∃ byte, readByte b (IMAGE_OFFSET + (p.1 >>> 1)) = some byte ∧
          (p.1 * PIXEL_STRIDE, pal.getD (byte &&& 0x0F) zeroColor) ∈ ws ∧
          (p.2 * PIXEL_STRIDE, pal.getD (byte >>> 4) zeroColor) ∈ ws := by
  intro ps
  induction ps with
  | nil => intro ws _ p hp; simp at hp
  | cons q ps ih =>
      intro ws h p hp
      obtain ⟨byte, rest, hbyte, hrest, hw⟩ := unpackLoop_cons_elim h
      subst hw
      rcases List.mem_cons.mp hp with hp | hp
      · subst hp
        exact ⟨byte, hbyte, by simp, by simp⟩
      · obtain ⟨byte2, hbyte2, h1, h2⟩ := ih hrest p hp
        exact ⟨byte2, hbyte2,
          List.mem_cons_of_mem _ (List.mem_cons_of_mem _ h1),
          List.mem_cons_of_mem _ (List.mem_cons_of_mem _ h2)⟩

theorem unpackLoop_offsets {b : Buffer} {pal : List (List Nat)} :
    ∀ {ps : List (Nat × Nat)} {ws : List (Nat × List Nat)},
      unpackLoop b pal ps = some ws →
        ws.map Prod.fst =
          (ps.flatMap (fun p => [p.1, p.2])).map (· * PIXEL_STRIDE) := by
  intro ps
  induction ps with
  | nil =>
      intro ws h
      simp only [unpackLoop, Option.some_inj] at h
      simp [← h]
  | cons p ps ih =>
      intro ws h
      obtain ⟨byte, rest, _, hrest, hw⟩ := unpackLoop_cons_elim h
      subst hw
      simp [ih hrest]

theorem writeBytesAt_length :
    ∀ {vs buf out : List Nat} {off : Nat},
      writeBytesAt buf off vs = some out → out.length = buf.length := by
  intro vs
  induction vs with
  | nil =>
      intro buf out off h
      simp only [writeBytesAt, Option.some_inj] at h
      simp [← h]
  | cons v vs ih =>
      intro buf out off h
      simp only [writeBytesAt] at h
      split at h
      · have := ih h
        simpa using this
      · exact absurd h (by simp)

theorem writeBytesAt_inbounds :
    ∀ {vs buf out : List Nat} {off : Nat},
      writeBytesAt buf off vs = some out → ∀ j < vs.length, off + j < buf.length := by
  intro vs
  induction vs with
  | nil => intro buf out off _ j hj; simp at hj
  | cons v vs ih =>
      intro buf out off h j hj
      simp only [writeBytesAt] at h
      split at h
      next hlt =>
        cases j with
        | zero => simpa using hlt
        | succ j =>
            have := ih h j (by simp at hj; omega)
            simp only [List.length_set] at this
            omega
      next hlt => exact absurd h (by simp)

theorem applyWrites_length :
    ∀ {ws : List (Nat × List Nat)} {buf out : List Nat},
      applyWrites buf ws = some out → out.length = buf.length := by
  intro ws
  induction ws with
  | nil =>
      intro buf out h
      simp only [applyWrites, Option.some_inj] at h
      simp [← h]
  | cons wr ws ih =>
      intro buf out h
      rw [show applyWrites buf (wr :: ws) =
            (writeBytesAt buf wr.1 wr.2).bind (fun buf2 => applyWrites buf2 ws) from rfl,
          Option.bind_eq_some] at h
      obtain ⟨buf2, hbuf2, h⟩ := h
      rw [ih h, writeBytesAt_length hbuf2]

theorem applyWrites_inbounds :
    ∀ {ws : List (Nat × List Nat)} {buf out : List Nat},
      applyWrites buf ws = some out → ∀ wr ∈ ws, ∀ j < wr.2.length, wr.1 + j < buf.length := by
  intro ws
  induction ws with
  | nil => intro buf out _ wr hwr; simp at hwr
  | cons wr0 ws ih =>
      intro buf out h wr hwr j hj
      rw [show applyWrites buf (wr0 :: ws) =
            (writeBytesAt buf wr0.1 wr0.2).bind (fun buf2 => applyWrites buf2 ws) from rfl,
          Option.bind_eq_some] at h
      obtain ⟨buf2, hbuf2, h⟩ := h
      rcases List.mem_cons.mp hwr with hw | hw
      · subst hw
        exact writeBytesAt_inbounds hbuf2 j hj
      · have := ih h wr hw j hj
        rwa [writeBytesAt_length hbuf2] at this

theorem applyWrites_oob :
    ∀ {ws : List (Nat × List Nat)} {buf : List Nat} {wr : Nat × List Nat},
      wr ∈ ws → wr.2 ≠ [] → buf.length ≤ wr.1 → applyWrites buf ws = none := by
  intro ws
  induction ws with
  | nil => intro buf wr hwr; simp at hwr
  | cons wr0 ws ih =>
      intro buf wr hwr hne hoob
      rw [show applyWrites buf (wr0 :: ws) =
            (writeBytesAt buf wr0.1 wr0.2).bind (fun buf2 => applyWrites buf2 ws) from rfl]
      rcases List.mem_cons.mp hwr with hw | hw
      · subst hw
        cases hv : wr.2 with
        | nil => exact absurd hv hne
        | cons v vs =>
            rw [show writeBytesAt buf wr.1 (v :: vs) =
                  (if wr.1 < buf.length then writeBytesAt (buf.set wr.1 v) (wr.1 + 1) vs
                   else none) from rfl, if_neg (by omega)]
            rfl
      · cases hb : writeBytesAt buf wr0.1 wr0.2 with
        | none => rfl
        | some buf2 =>
            have hlen : buf2.length = buf.length := writeBytesAt_length hb
            simp only [Option.some_bind]
            exact ih hw hne (by omega)

theorem range_map_pair_flat (a : Nat) :
    ∀ m : Nat,
      (((List.range m).map (fun k => (a + 2 * k, a + 2 * k + 1))).flatMap
        (fun p => [p.1, p.2])) = List.range' a (2 * m) := by
  intro m
  induction m with
  | zero => simp
  | succ m ih =>
      rw [List.range_succ, List.map_append, List.flatMap_append, ih]
      simp only [List.map_cons, List.map_nil, List.flatMap_cons, List.flatMap_nil,
        List.append_nil]
      have h3 : List.range' a (2 * m) ++ List.range' (a + 2 * m) 2 =
          List.range' a (2 + 2 * m) := List.range'_append_1 a (2 * m) 2
      rw [show List.range' (a + 2 * m) 2 = [a + 2 * m, a + 2 * m + 1] from rfl] at h3
      rw [h3]
      congr 1
      omega

theorem rowPairs_flat (w y : Nat) :
    (rowPairs w y).flatMap (fun p => [p.1, p.2]) =
      List.range' (y * w) (2 * ((w + 1) / 2)) :=
  range_map_pair_flat (y * w) ((w + 1) / 2)

theorem range_flatMap_range' (w : Nat) :
    ∀ h : Nat, (List.range h).flatMap (fun y => List.range' (y * w) w) =
      List.range' 0 (h * w) := by
  intro h
  induction h with
  | zero => simp
  | succ h ih =>
      rw [List.range_succ, List.flatMap_append, ih]
      simp only [List.flatMap_cons, List.flatMap_nil, List.append_nil]
      have h3 := List.range'_append_1 0 (h * w) w
      rw [Nat.zero_add] at h3
      rw [h3, Nat.succ_mul, Nat.add_comm (h * w) w]

theorem pixelPairs_flat_even {w : Nat} (h : Nat) (hw : w % 2 = 0) :
    (pixelPairs w h).flatMap (fun p => [p.1, p.2]) = List.range (w * h) := by
  rw [pixelPairs, List.flatMap_assoc]
  simp only [rowPairs_flat]
  rw [show 2 * ((w + 1) / 2) = w by omega]
  rw [range_flatMap_range' w h, List.range_eq_range', Nat.mul_comm w h]

theorem pixelPairs_length (w : Nat) :
    ∀ h : Nat, (pixelPairs w h).length = h * ((w + 1) / 2) := by
  intro h
  induction h with
  | zero => simp [pixelPairs]
  | succ h ih =>
      rw [pixelPairs, List.range_succ, List.flatMap_append] at *
      rw [List.length_append, ih]
      simp only [List.flatMap_cons, List.flatMap_nil, List.append_nil, rowPairs,
        List.length_map, List.length_range]
      rw [Nat.succ_mul]

theorem pixelPairs_mem {w h y x : Nat} (hy : y < h) (hx : x < w) (hxe : x % 2 = 0) :
    (y * w + x, y * w + x + 1) ∈ pixelPairs w h := by
  have hx2 : 2 * (x / 2) = x := by omega
  refine List.mem_flatMap.mpr ⟨y, List.mem_range.mpr hy, ?_⟩
  refine List.mem_map.mpr ⟨x / 2, List.mem_range.mpr (by omega), ?_⟩
  rw [hx2]

theorem read_width_elim {b : Buffer} {w : Nat} (h : read_width b = some w) :
    ∃ lo hi, readByte b WIDTH_OFFSET = some lo ∧
      readByte b (WIDTH_OFFSET + 1) = some hi ∧
      w = (lo ||| (hi <<< 8)) % 2 ^ 16 := by
  rw [show read_width b =
        (readByte b WIDTH_OFFSET).bind (fun lo =>
          (readByte b (WIDTH_OFFSET + 1)).bind (fun hi =>
            some ((lo ||| (hi <<< 8)) % 2 ^ 16))) from rfl] at h
  rw [Option.bind_eq_some] at h
  obtain ⟨lo, hlo, h⟩ := h
  rw [Option.bind_eq_some] at h
  obtain ⟨hi, hhi, h⟩ := h
  exact ⟨lo, hi, hlo, hhi, (Option.some_inj.mp h).symm⟩

theorem read_height_elim {b : Buffer} {h : Nat} (hh : read_height b = some h) :
    ∃ lo hi, readByte b HEIGHT_OFFSET = some lo ∧
      readByte b (HEIGHT_OFFSET + 1) = some hi ∧
      h = (lo ||| (hi <<< 8)) % 2 ^ 16 := by
  rw [show read_height b =
        (readByte b HEIGHT_OFFSET).bind (fun lo =>
          (readByte b (HEIGHT_OFFSET + 1)).bind (fun hi =>
            some ((lo ||| (hi <<< 8)) % 2 ^ 16))) from rfl] at hh
  rw [Option.bind_eq_some] at hh
  obtain ⟨lo, hlo, hh⟩ := hh
  rw [Option.bind_eq_some] at hh
  obtain ⟨hi, hhi, hh⟩ := hh
  exact ⟨lo, hi, hlo, hhi, (Option.some_inj.mp hh).symm⟩

theorem read_width_lt {b : Buffer} {w : Nat} (h : read_width b = some w) : w < 2 ^ 16 := by
  obtain ⟨lo, hi, _, _, hw⟩ := read_width_elim h
  subst hw
  exact Nat.mod_lt _ (by norm_num)

theorem read_height_lt {b : Buffer} {h : Nat} (hh : read_height b = some h) : h < 2 ^ 16 := by
  obtain ⟨lo, hi, _, _, hw⟩ := read_height_elim hh
  subst hw
  exact Nat.mod_lt _ (by norm_num)

theorem process_file_elim {b : Buffer} {call : SinkCall}
    (hc : process_file b = some call) :
    ∃ pal w h ws px, validate_file b = some true ∧ decode_palette b = some pal ∧
      read_width b = some w ∧ read_height b = some h ∧
      unpackWrites b pal w h = some ws ∧
      applyWrites (List.replicate (allocSize w h) 0) ws = some px ∧
      call = ⟨w, h, PIXEL_STRIDE, px, w * PIXEL_STRIDE⟩ := by
  rw [show process_file b =
        (validate_file b).bind (fun ok =>
          if ok then
            (decode_palette b).bind (fun palette =>
              (read_width b).bind (fun w =>
                (read_height b).bind (fun h =>
                  (unpackWrites b palette w h).bind (fun ws =>
                    (applyWrites (List.replicate (allocSize w h) 0) ws).bind (fun px =>
                      some ⟨w, h, PIXEL_STRIDE, px, w * PIXEL_STRIDE⟩)))))
          else none) from rfl] at hc
  rw [Option.bind_eq_some] at hc
  obtain ⟨ok, hok, hc⟩ := hc
  cases ok with
  | false =>
      rw [if_neg (by decide)] at hc
      cases hc
  | true =>
      rw [if_pos rfl] at hc
      rw [Option.bind_eq_some] at hc
      obtain ⟨pal, hpal, hc⟩ := hc
      rw [Option.bind_eq_some] at hc
      obtain ⟨w, hw, hc⟩ := hc
      rw [Option.bind_eq_some] at hc
      obtain ⟨h, hh, hc⟩ := hc
      rw [Option.bind_eq_some] at hc
      obtain ⟨ws, hws, hc⟩ := hc
      rw [Option.bind_eq_some] at hc
      obtain ⟨px, hpx, hc⟩ := hc
      exact ⟨pal, w, h, ws, px, hok, hpal, hw, hh, hws, hpx,
        (Option.some_inj.mp hc).symm⟩

/-! ### Claim theorems -/

/-- C10: for every width and height actually decoded from a header (hence
`u16` values), the `u32` pixel count `width * height` used to size the
pixel buffer and bound the unpacking loop equals the exact mathematical
product: the 32-bit multiplication neither overflows nor truncates. -/
theorem pixel_count_exact {b : Buffer} {w h : Nat}
    (hw : read_width b = some w) (hh : read_height b = some h) :
    pixelCount w h = w * h := by
  have h1 := read_width_lt hw
  have h2 := read_height_lt hh
  unfold pixelCount
  apply Nat.mod_eq_of_lt
  calc w * h ≤ (2 ^ 16 - 1) * (2 ^ 16 - 1) := Nat.mul_le_mul (by omega) (by omega)
    _ < 2 ^ 32 := by norm_num

/-- C10 witness: the sample buffer decodes to width 4, height 2, and the
pixel count is exactly 8. -/
theorem pixel_count_exact_witness :
    read_width sampleBuffer = some 4 ∧ read_height sampleBuffer = some 2 ∧
      pixelCount 4 2 = 4 * 2 :=
  ⟨rfl, rfl, pixel_count_exact (b := sampleBuffer) rfl rfl⟩

/-- C8: the claim says a buffer shorter than the 4-byte signature region
makes the validator return `false` without reading out of bounds.  The code
instead indexes `buffer.data[0..3]` unconditionally, so for the empty
buffer (a `nullptr` data pointer) and for any shorter buffer whose bytes
all match the signature prefix the read runs out of bounds — modelled as
`none` (undefined behaviour), not `some false`. -/
theorem validate_short_reads_oob :
    validate_file ⟨[]⟩ = none ∧ validate_file ⟨[0x47, 0x41, 0x4E]⟩ = none ∧
      validate_file ⟨[0x47]⟩ ≠ some false :=
  ⟨rfl, rfl, by decide⟩

/-- C3: a decoded palette always has exactly 16 entries; entry 0 is the
synthesised transparent black `(0,0,0,0)` (no buffer bytes are read for
it), and every entry `i ∈ [1,15]` takes its R, G, B from the three bytes
at `PALETTE_OFFSET + i * PIXEL_STRIDE` with alpha forced to 255 (the
slot's stored fourth byte is never read). -/
theorem palette_decoded (b : Buffer) (pal : List (List Nat))
    (hp : decode_palette b = some pal) :
    pal.length = 16 ∧
    pal.getD 0 zeroColor = [0, 0, 0, 0] ∧
    (∀ i, 1 ≤ i → i ≤ 15 →
      ∃ r g bl, readByte b (PALETTE_OFFSET + i * PIXEL_STRIDE) = some r ∧
        readByte b (PALETTE_OFFSET + i * PIXEL_STRIDE + 1) = some g ∧
        readByte b (PALETTE_OFFSET + i * PIXEL_STRIDE + 2) = some bl ∧
        pal.getD i zeroColor = [r, g, bl, 255]) := by
  have hp2 : paletteFrom b 0 16 = some pal := hp
  refine ⟨paletteFrom_length hp2, ?_, ?_⟩
  · have h0 := paletteFrom_getD hp2 0 (by omega)
    rw [show paletteEntry b (0 + 0) = some [0, 0, 0, 0] from rfl] at h0
    exact (Option.some_inj.mp h0).symm
  · intro i h1 h15
    have hi := paletteFrom_getD hp2 i (by omega)
    rw [Nat.zero_add] at hi
    obtain ⟨r, g, bl, hr, hg, hbl, hc⟩ := paletteEntry_pos_elim (by omega) hi
    exact ⟨r, g, bl, hr, hg, hbl, hc⟩

/-- C3 witness: the sample buffer's palette decodes, has 16 entries, its
entry 0 is transparent black, and entries 1–15 are opaque buffer colours. -/
theorem palette_decoded_witness :
    decode_palette sampleBuffer = some samplePalette ∧
      (samplePalette.length = 16 ∧
       samplePalette.getD 0 zeroColor = [0, 0, 0, 0] ∧
       (∀ i, 1 ≤ i → i ≤ 15 →
         ∃ r g bl,
           readByte sampleBuffer (PALETTE_OFFSET + i * PIXEL_STRIDE) = some r ∧
           readByte sampleBuffer (PALETTE_OFFSET + i * PIXEL_STRIDE + 1) = some g ∧
           readByte sampleBuffer (PALETTE_OFFSET + i * PIXEL_STRIDE + 2) = some bl ∧
           samplePalette.getD i zeroColor = [r, g, bl, 255])) :=
  ⟨rfl, palette_decoded sampleBuffer samplePalette rfl⟩

/-- C7: on a validated buffer long enough to hold the header, the width is
the little-endian `u16` at offset 0x424 and the height the little-endian
`u16` at offset 0x426, each field read independently from its own two
bytes. -/
theorem header_fields (b : Buffer) (hwf : b.WF) (_hv : validate_file b = some true)
    (hlen : HEIGHT_OFFSET + 2 ≤ b.data.length) :
    ∃ wlo whi hlo hhi,
      readByte b WIDTH_OFFSET = some wlo ∧
      readByte b (WIDTH_OFFSET + 1) = some whi ∧
      readByte b HEIGHT_OFFSET = some hlo ∧
      readByte b (HEIGHT_OFFSET + 1) = some hhi ∧
      read_width b = some (wlo + 256 * whi) ∧
      read_height b = some (hlo + 256 * hhi) := by
  have hlen2 : 0x428 ≤ b.data.length := hlen
  obtain ⟨wlo, hwlo⟩ := readByte_isSome (b := b) (i := WIDTH_OFFSET)
    (by show 0x424 < b.data.length; omega)
  obtain ⟨whi, hwhi⟩ := readByte_isSome (b := b) (i := WIDTH_OFFSET + 1)
    (by show 0x424 + 1 < b.data.length; omega)
  obtain ⟨hlo, hhlo⟩ := readByte_isSome (b := b) (i := HEIGHT_OFFSET)
    (by show 0x426 < b.data.length; omega)
  obtain ⟨hhi, hhhi⟩ := readByte_isSome (b := b) (i := HEIGHT_OFFSET + 1)
    (by show 0x426 + 1 < b.data.length; omega)
  refine ⟨wlo, whi, hlo, hhi, hwlo, hwhi, hhlo, hhhi, ?_, ?_⟩
  · rw [show read_width b =
          (readByte b WIDTH_OFFSET).bind (fun lo =>
            (readByte b (WIDTH_OFFSET + 1)).bind (fun hi =>
              some ((lo ||| (hi <<< 8)) % 2 ^ 16))) from rfl,
        hwlo, hwhi]
    simp only [Option.some_bind, Option.some_inj]
    rw [lor_shiftLeft_eight whi (readByte_lt hwf hwlo)]
    exact Nat.mod_eq_of_lt (by
      have := readByte_lt hwf hwlo
      have := readByte_lt hwf hwhi
      omega)
  · rw [show read_height b =
          (readByte b HEIGHT_OFFSET).bind (fun lo =>
            (readByte b (HEIGHT_OFFSET + 1)).bind (fun hi =>
              some ((lo ||| (hi <<< 8)) % 2 ^ 16))) from rfl,
        hhlo, hhhi]
    simp only [Option.some_bind, Option.some_inj]
    rw [lor_shiftLeft_eight hhi (readByte_lt hwf hhlo)]
    exact Nat.mod_eq_of_lt (by
      have := readByte_lt hwf hhlo
      have := readByte_lt hwf hhhi
      omega)

theorem sampleBuffer_wf : sampleBuffer.WF := by
  intro x hx
  have hx2 : x ∈ sampleBytes := hx
  unfold sampleBytes at hx2
  simp only [List.mem_append, List.mem_replicate, List.mem_cons,
    List.not_mem_nil, or_false] at hx2
  omega

/-- C7 witness: on the sample buffer the header reader returns width 4 and
height 2, matching the little-endian bytes at 0x424 and 0x426. -/
theorem header_fields_witness :
    sampleBuffer.WF ∧ validate_file sampleBuffer = some true ∧
      HEIGHT_OFFSET + 2 ≤ sampleBuffer.data.length ∧
      (∃ wlo whi hlo hhi,
        readByte sampleBuffer WIDTH_OFFSET = some wlo ∧
        readByte sampleBuffer (WIDTH_OFFSET + 1) = some whi ∧
        readByte sampleBuffer HEIGHT_OFFSET = some hlo ∧
        readByte sampleBuffer (HEIGHT_OFFSET + 1) = some hhi ∧
        read_width sampleBuffer = some (wlo + 256 * whi) ∧
        read_height sampleBuffer = some (hlo + 256 * hhi)) :=
  ⟨sampleBuffer_wf, rfl, by decide,
    header_fields sampleBuffer sampleBuffer_wf rfl (by decide)⟩

/-- C4: for any buffer holding at least the 4-byte signature region, the
validator succeeds with `true` exactly when the first four bytes are
`0x47 0x41 0x4E 0x10` in order; in particular a signature whose last byte
is `0x11` is rejected with `false`. -/
theorem validate_iff_signature (l : List Nat) (hlen : 4 ≤ l.length) :
    (validate_file ⟨l⟩ = some true ↔ l.take 4 = ExpectedSignature) ∧
    (l.take 4 = [0x47, 0x41, 0x4E, 0x11] → validate_file ⟨l⟩ = some false) := by
  rcases l with _ | ⟨a, _ | ⟨b, _ | ⟨c, _ | ⟨d, t⟩⟩⟩⟩ <;> simp at hlen
  simp only [validate_file, checkSig, ExpectedSignature, readByte, SIGNATURE_OFFSET,
    List.get?, Option.bind_eq_bind, Option.some_bind, List.take, List.cons.injEq,
    and_true]
  constructor
  · split_ifs <;> simp_all
  · intro hd
    obtain ⟨ha, hb, hc, hd⟩ := hd
    split_ifs <;> simp_all

/-- C4 witness: a 4-byte buffer with the wrong last signature byte. -/
theorem validate_iff_signature_witness :
    4 ≤ ([0x47, 0x41, 0x4E, 0x11] : List Nat).length ∧
      ((validate_file ⟨[0x47, 0x41, 0x4E, 0x11]⟩ = some true ↔
          ([0x47, 0x41, 0x4E, 0x11] : List Nat).take 4 = ExpectedSignature) ∧
        (([0x47, 0x41, 0x4E, 0x11] : List Nat).take 4 = [0x47, 0x41, 0x4E, 0x11] →
          validate_file ⟨[0x47, 0x41, 0x4E, 0x11]⟩ = some false)) :=
  ⟨by decide, validate_iff_signature [0x47, 0x41, 0x4E, 0x11] (by decide)⟩

/-- C1: whenever the unpacking loop trace exists, it has exactly one entry
pair per loop iteration (`2 * (height * ((width+1)/2))` writes in total),
and for every row `y < height` and even column `x < width`, with
`i1 = y*width + x` and `i2 = i1 + 1`, the loop reads the single byte at
`IMAGE_OFFSET + (i1 >> 1)` and records the copy of the palette colour of
its low nibble to byte offset `i1 * PIXEL_STRIDE` and of its high nibble
to byte offset `i2 * PIXEL_STRIDE` of the pixel buffer. -/
theorem unpack_pair_trace (b : Buffer) (pal : List (List Nat)) (w h y x : Nat)
    (ws : List (Nat × List Nat)) (hws : unpackWrites b pal w h = some ws)
    (hy : y < h) (hx : x < w) (hxe : x % 2 = 0) :
    ws.length = 2 * (h * ((w + 1) / 2)) ∧
    ∃ byte, readByte b (IMAGE_OFFSET + ((y * w + x) >>> 1)) = some byte ∧
      ((y * w + x) * PIXEL_STRIDE, pal.getD (byte &&& 0x0F) zeroColor) ∈ ws ∧
      ((y * w + x + 1) * PIXEL_STRIDE, pal.getD (byte >>> 4) zeroColor) ∈ ws := by
  have hws2 : unpackLoop b pal (pixelPairs w h) = some ws := hws
  constructor
  · rw [unpackLoop_length hws2, pixelPairs_length]
  · have hmem := pixelPairs_mem hy hx hxe
    obtain ⟨byte, hbyte, h1, h2⟩ := unpackLoop_mem hws2 _ hmem
    exact ⟨byte, hbyte, h1, h2⟩

/-- C1 witness: the pair (i1, i2) = (0, 1) of the sample 4×2 image. -/
theorem unpack_pair_trace_witness :
    unpackWrites sampleBuffer samplePalette 4 2 = some sampleWrites ∧
      (0 : Nat) < 2 ∧ (0 : Nat) < 4 ∧ (0 : Nat) % 2 = 0 ∧
      (sampleWrites.length = 2 * (2 * ((4 + 1) / 2)) ∧
        ∃ byte,
          readByte sampleBuffer (IMAGE_OFFSET + ((0 * 4 + 0) >>> 1)) = some byte ∧
          ((0 * 4 + 0) * PIXEL_STRIDE, samplePalette.getD (byte &&& 0x0F) zeroColor)
            ∈ sampleWrites ∧
          ((0 * 4 + 0 + 1) * PIXEL_STRIDE, samplePalette.getD (byte >>> 4) zeroColor)
            ∈ sampleWrites) :=
  ⟨rfl, by decide, by decide, by decide,
    unpack_pair_trace sampleBuffer samplePalette 4 2 0 0 sampleWrites rfl
      (by decide) (by decide) (by decide)⟩

/-- C6: for an even width the offsets written by the unpacking loop are
exactly `0, 4, 8, ...` — the `width*height` pixel slots in order — so every
pixel of the buffer is written exactly once. -/
theorem even_width_writes_each_pixel_once (b : Buffer) (pal : List (List Nat))
    (w h : Nat) (ws : List (Nat × List Nat))
    (hws : unpackWrites b pal w h = some ws) (hw : w % 2 = 0) :
    ws.map Prod.fst = (List.range (w * h)).map (· * PIXEL_STRIDE) ∧
    ∀ i, i < w * h → (ws.map Prod.fst).count (i * PIXEL_STRIDE) = 1 := by
  have hws2 : unpackLoop b pal (pixelPairs w h) = some ws := hws
  have h1 : ws.map Prod.fst = (List.range (w * h)).map (· * PIXEL_STRIDE) := by
    rw [unpackLoop_offsets hws2, pixelPairs_flat_even h hw]
  refine ⟨h1, ?_⟩
  intro i hi
  rw [h1]
  have hinj : Function.Injective (· * PIXEL_STRIDE) := by
    intro a1 a2 ha
    simp only [PIXEL_STRIDE] at ha
    omega
  exact (List.count_map_of_injective _ _ hinj i).trans
    (List.count_eq_one_of_mem (List.nodup_range _) (List.mem_range.mpr hi))

/-- C6 witness: the sample 4×2 trace writes offsets 0,4,...,28, one per
pixel. -/
theorem even_width_writes_each_pixel_once_witness :
    unpackWrites sampleBuffer samplePalette 4 2 = some sampleWrites ∧
      (4 : Nat) % 2 = 0 ∧
      (sampleWrites.map Prod.fst = (List.range (4 * 2)).map (· * PIXEL_STRIDE) ∧
        ∀ i, i < 4 * 2 → (sampleWrites.map Prod.fst).count (i * PIXEL_STRIDE) = 1) :=
  ⟨rfl, by decide,
    even_width_writes_each_pixel_once sampleBuffer samplePalette 4 2 sampleWrites
      rfl (by decide)⟩

/-- C5: with an odd width, every row's last loop iteration (`x = width-1`)
records the high-nibble colour at linear pixel index `(y+1)*width` — the
logical first column of the next row — and for the last row that offset is
`width*height*PIXEL_STRIDE`, at or past the end of any buffer of at most
`width*height*PIXEL_STRIDE` bytes (the allocation size never exceeds it),
so applying the trace to the allocated pixel buffer runs out of bounds. -/
theorem odd_width_overflow (b : Buffer) (pal : List (List Nat)) (w h : Nat)
    (ws : List (Nat × List Nat)) (hpal : decode_palette b = some pal)
    (hw : w % 2 = 1) (hh : 0 < h) (hws : unpackWrites b pal w h = some ws) :
    (∀ y, y < h →
      ∃ byte, readByte b (IMAGE_OFFSET + ((y * w + (w - 1)) >>> 1)) = some byte ∧
        ((y + 1) * w * PIXEL_STRIDE, pal.getD (byte >>> 4) zeroColor) ∈ ws) ∧
    allocSize w h ≤ w * h * PIXEL_STRIDE ∧
    applyWrites (List.replicate (allocSize w h) 0) ws = none := by
  have hws2 : unpackLoop b pal (pixelPairs w h) = some ws := hws
  have main : ∀ y, y < h →
      ∃ byte, readByte b (IMAGE_OFFSET + ((y * w + (w - 1)) >>> 1)) = some byte ∧
        ((y + 1) * w * PIXEL_STRIDE, pal.getD (byte >>> 4) zeroColor) ∈ ws := by
    intro y hy
    have hmem := pixelPairs_mem (w := w) (h := h) (y := y) (x := w - 1)
      hy (by omega) (by omega)
    obtain ⟨byte, hbyte, _, h2⟩ := unpackLoop_mem hws2 _ hmem
    refine ⟨byte, hbyte, ?_⟩
    have he : (y + 1) * w = y * w + (w - 1) + 1 := by
      rw [Nat.succ_mul]
      omega
    rw [he]
    exact h2
  have halloc : allocSize w h ≤ w * h * PIXEL_STRIDE :=
    calc allocSize w h ≤ PIXEL_STRIDE * pixelCount w h := Nat.mod_le _ _
      _ ≤ PIXEL_STRIDE * (w * h) := Nat.mul_le_mul_left _ (Nat.mod_le _ _)
      _ = w * h * PIXEL_STRIDE := Nat.mul_comm _ _
  refine ⟨main, halloc, ?_⟩
  obtain ⟨byte, hbyte, hmem⟩ := main (h - 1) (by omega)
  have hlen4 : (pal.getD (byte >>> 4) zeroColor).length = 4 :=
    decode_palette_getD_length hpal _
  apply applyWrites_oob hmem
  · intro hnil
    have hnil2 : pal.getD (byte >>> 4) zeroColor = [] := hnil
    rw [hnil2] at hlen4
    simp at hlen4
  · simp only [List.length_replicate]
    have he : h - 1 + 1 = h := by omega
    rw [he]
    calc allocSize w h ≤ w * h * PIXEL_STRIDE := halloc
      _ = h * w * PIXEL_STRIDE := by rw [Nat.mul_comm w h]

/-- C5 witness: the 3×1 odd-width sample: its single row's last pair writes
at pixel index 3 = width*height, and applying the trace fails. -/
theorem odd_width_overflow_witness :
    decode_palette oddBuffer = some oddPalette ∧ (3 : Nat) % 2 = 1 ∧
      (0 : Nat) < 1 ∧ unpackWrites oddBuffer oddPalette 3 1 = some oddWrites ∧
      ((∀ y, y < 1 →
          ∃ byte,
            readByte oddBuffer (IMAGE_OFFSET + ((y * 3 + (3 - 1)) >>> 1)) = some byte ∧
            ((y + 1) * 3 * PIXEL_STRIDE, oddPalette.getD (byte >>> 4) zeroColor)
              ∈ oddWrites) ∧
        allocSize 3 1 ≤ 3 * 1 * PIXEL_STRIDE ∧
        applyWrites (List.replicate (allocSize 3 1) 0) oddWrites = none) :=
  ⟨rfl, by decide, by decide, rfl,
    odd_width_overflow oddBuffer oddPalette 3 1 oddWrites rfl (by decide)
      (by decide) rfl⟩

theorem alloc_eq_of_success {b : Buffer} {pal : List (List Nat)} {w h : Nat}
    {ws : List (Nat × List Nat)} {px : List Nat}
    (hpal : decode_palette b = some pal) (hw16 : w < 2 ^ 16) (hh16 : h < 2 ^ 16)
    (hws : unpackLoop b pal (pixelPairs w h) = some ws)
    (hpx : applyWrites (List.replicate (allocSize w h) 0) ws = some px) :
    allocSize w h = w * h * PIXEL_STRIDE := by
  have hcount : pixelCount w h = w * h := by
    unfold pixelCount
    apply Nat.mod_eq_of_lt
    calc w * h ≤ (2 ^ 16 - 1) * (2 ^ 16 - 1) := Nat.mul_le_mul (by omega) (by omega)
      _ < 2 ^ 32 := by norm_num
  have halloc_le : allocSize w h ≤ PIXEL_STRIDE * (w * h) := by
    unfold allocSize
    rw [hcount]
    exact Nat.mod_le _ _
  rcases Nat.eq_zero_or_pos (w * h) with hwh | hwh
  · have h0 : allocSize w h = 0 := by
      unfold allocSize
      rw [hcount, hwh]
      simp
    rw [h0, hwh]
    simp
  · have hwpos : 0 < w := by
      rcases Nat.eq_zero_or_pos w with h0 | h0
      · rw [h0] at hwh; simp at hwh
      · exact h0
    have hhpos : 0 < h := by
      rcases Nat.eq_zero_or_pos h with h0 | h0
      · rw [h0] at hwh; simp at hwh
      · exact h0
    have hps : PIXEL_STRIDE = 4 := rfl
    by_cases hpar : w % 2 = 0
    · have hw2 : 2 ≤ w := by omega
      have hmem := pixelPairs_mem (w := w) (h := h) (y := h - 1) (x := w - 2)
        (by omega) (by omega) (by omega)
      obtain ⟨byte, _, _, h2⟩ := unpackLoop_mem hws _ hmem
      have hlen4 : (pal.getD (byte >>> 4) zeroColor).length = 4 :=
        decode_palette_getD_length hpal _
      have hin := applyWrites_inbounds hpx _ h2 3 (by rw [hlen4]; omega)
      simp only [List.length_replicate] at hin
      have hoff : (h - 1) * w + (w - 2) + 1 = w * h - 1 := by
        have e1 : (h - 1 + 1) * w = (h - 1) * w + w := Nat.succ_mul _ _
        have e2 : h - 1 + 1 = h := by omega
        rw [e2] at e1
        have e3 : h * w = w * h := Nat.mul_comm _ _
        omega
      rw [hoff, hps] at hin
      rw [hps] at halloc_le ⊢
      omega
    · have hmem := pixelPairs_mem (w := w) (h := h) (y := h - 1) (x := w - 1)
        (by omega) (by omega) (by omega)
      obtain ⟨byte, _, _, h2⟩ := unpackLoop_mem hws _ hmem
      have hlen4 : (pal.getD (byte >>> 4) zeroColor).length = 4 :=
        decode_palette_getD_length hpal _
      have hoff : (h - 1) * w + (w - 1) + 1 = w * h := by
        have e1 : (h - 1 + 1) * w = (h - 1) * w + w := Nat.succ_mul _ _
        have e2 : h - 1 + 1 = h := by omega
        rw [e2] at e1
        have e3 : h * w = w * h := Nat.mul_comm _ _
        omega
      have hoob : (List.replicate (allocSize w h) 0).length ≤
          ((h - 1) * w + (w - 1) + 1) * PIXEL_STRIDE := by
        simp only [List.length_replicate]
        rw [hoff]
        calc allocSize w h ≤ PIXEL_STRIDE * (w * h) := halloc_le
          _ = w * h * PIXEL_STRIDE := Nat.mul_comm _ _
      have hnone := applyWrites_oob h2
        (by intro hnil
            have hnil2 : pal.getD (byte >>> 4) zeroColor = [] := hnil
            rw [hnil2] at hlen4
            simp at hlen4) hoob
      rw [hnone] at hpx
      cases hpx

/-- C9: whenever the pipeline reaches the image sink, the width and height
handed over are exactly the ones decoded from the header, the channel
count is 4, the pixel data is exactly `width * height * PIXEL_STRIDE`
bytes, and the row stride is `width * PIXEL_STRIDE`. -/
theorem sink_call_exact (b : Buffer) (call : SinkCall)
    (hc : process_file b = some call) :
    read_width b = some call.width ∧ read_height b = some call.height ∧
    call.comp = PIXEL_STRIDE ∧
    call.pixels.length = call.width * call.height * PIXEL_STRIDE ∧
    call.stride = call.width * PIXEL_STRIDE := by
  obtain ⟨pal, w, h, ws, px, _, hpal, hw, hh, hws, hpx, hcall⟩ := process_file_elim hc
  subst hcall
  refine ⟨hw, hh, rfl, ?_, rfl⟩
  have hws2 : unpackLoop b pal (pixelPairs w h) = some ws := hws
  show px.length = w * h * PIXEL_STRIDE
  have hlen : px.length = allocSize w h := by
    rw [applyWrites_length hpx, List.length_replicate]
  rw [hlen,
    alloc_eq_of_success hpal (read_width_lt hw) (read_height_lt hh) hws2 hpx]

/-- C9 witness: the sink call of the sample 4×2 file. -/
theorem sink_call_exact_witness :
    process_file sampleBuffer = some sampleCall ∧
      (read_width sampleBuffer = some sampleCall.width ∧
       read_height sampleBuffer = some sampleCall.height ∧
       sampleCall.comp = PIXEL_STRIDE ∧
       sampleCall.pixels.length = sampleCall.width * sampleCall.height * PIXEL_STRIDE ∧
       sampleCall.stride = sampleCall.width * PIXEL_STRIDE) :=
  ⟨rfl, sink_call_exact sampleBuffer sampleCall rfl⟩

/-- C2 counterexample: on the 4×2 scenario buffer — palette entry 1 is
RGB(255,0,0) and the bitmap bytes are `[0x10, 0x01, 0x10, 0x01]` — the
first row of the decoded pixels is NOT red, transparent, red, transparent
as the claim states. -/
theorem scenario_row0_not_as_claimed :
    (process_file sampleBuffer).map (fun c => c.pixels.take 16) =
      some [0, 0, 0, 0, 255, 0, 0, 255, 255, 0, 0, 255, 0, 0, 0, 0] ∧
    (some [0, 0, 0, 0, 255, 0, 0, 255, 255, 0, 0, 255, 0, 0, 0, 0] : Option (List Nat)) ≠
      some [255, 0, 0, 255, 0, 0, 0, 0, 255, 0, 0, 255, 0, 0, 0, 0] :=
  ⟨rfl, by decide⟩

/-- C2 (amended): on the 4×2 scenario buffer the decode reaches the sink
with dimensions 4×2, and row 0 is transparent, red, red, transparent: the
byte `0x10` has low nibble 0 (left pixel of the pair → transparent) and
high nibble 1 (right pixel → red), and the byte `0x01` the converse. -/
theorem scenario_row0_decoded :
    (process_file sampleBuffer).map (fun c => (c.width, c.height, c.pixels.take 16)) =
      some (4, 2, [0, 0, 0, 0, 255, 0, 0, 255, 255, 0, 0, 255, 0, 0, 0, 0]) := rfl

end Gan2Png
